import Mathlib

set_option maxHeartbeats 1000000

/-!
Shallow embedding of the document-management system (Express + Drizzle
back end).  The embedded pieces are:

* the OCR text-cleaning pipeline `cleanOCRText` (queue module);
* the quick and advanced text extractors `extractText` /
  `extractTextAdvanced` (routes module and queue module) — the external
  OCR engine (tesseract) and Word extractor (mammoth) are modelled as
  oracle arguments of type `Except String String` (an `Error` thrown by
  the library is represented by its message string);
* the in-memory OCR queue (`addJob` / `processQueue` / `getJobStatus` /
  cleanup) as a state machine `Step` over `SystemState`;
* the storage layer's `searchDocuments` (filter composition, ordering,
  pagination, total count) over a list of rows standing for the SQL
  table; the SQL operators `ilike`/`eq`/`gte`/`lte` are given their
  documented PostgreSQL semantics;
* the upload-time enqueue decision and the reprocess endpoint handler.
-/

/-- Whitespace characters matched by the JavaScript regex class `\s`
(ASCII whitespace plus the Unicode white-space code points). -/
def jsWhitespace : List Char :=
  [' ', '\t', '\n', '\r', Char.ofNat 0x0b, Char.ofNat 0x0c,
   Char.ofNat 0xa0, Char.ofNat 0x1680, Char.ofNat 0x2000, Char.ofNat 0x2001,
   Char.ofNat 0x2002, Char.ofNat 0x2003, Char.ofNat 0x2004, Char.ofNat 0x2005,
   Char.ofNat 0x2006, Char.ofNat 0x2007, Char.ofNat 0x2008, Char.ofNat 0x2009,
   Char.ofNat 0x200a, Char.ofNat 0x2028, Char.ofNat 0x2029, Char.ofNat 0x202f,
   Char.ofNat 0x205f, Char.ofNat 0x3000, Char.ofNat 0xfeff]

/-- Membership test for the JavaScript `\s` class. -/
def jsIsSpace (c : Char) : Bool := jsWhitespace.contains c

/-- Removal of a trailing whitespace run (the right half of
`String.prototype.trim`). -/
def dropTrailingSpaces : List Char → List Char
  | [] => []
  | c :: rest =>
    let r := dropTrailingSpaces rest
    if r.isEmpty && jsIsSpace c then [] else c :: r

/-- JavaScript `String.prototype.trim`: strip leading and trailing
whitespace. -/
def trimChars (l : List Char) : List Char :=
  dropTrailingSpaces (l.dropWhile jsIsSpace)

/-- String wrapper for `trimChars`, modelling `text.trim()`. -/
def jsTrim (s : String) : String := String.mk (trimChars s.data)

/-- Suffix of a character list strictly after its last newline (used to
model where the regex match `\n\s*\n` ends inside a whitespace run). -/
def afterLastNl : List Char → List Char
  | [] => []
  | c :: rest =>
    if '\n' ∈ rest then afterLastNl rest
    else if c = '\n' then rest
    else afterLastNl rest

/-- Consuming the last newline shortens a list that contains one. -/
theorem afterLastNl_length_lt : ∀ l : List Char, '\n' ∈ l → (afterLastNl l).length < l.length := by
  intro l
  induction l with
  | nil => intro h; cases h
  | cons c rest ih =>
    intro h
    by_cases hr : '\n' ∈ rest
    · have : afterLastNl (c :: rest) = afterLastNl rest := by
        simp [afterLastNl, hr]
      rw [this]
      exact Nat.lt_trans (ih hr) (by simp)
    · by_cases hc : c = '\n'
      · have : afterLastNl (c :: rest) = rest := by
          simp [afterLastNl, hr, hc]
        rw [this]; simp
      · rcases List.mem_cons.mp h with h1 | h2
        · exact absurd h1.symm hc
        · exact absurd h2 hr

/-- First `replace` of `cleanOCRText`: the global regex replacement
`text.replace(/\n\s*\n/g, '\n')`.  A match starts at a newline; the
greedy `\s*` followed by the final `\n` makes the match run to the last
newline of the maximal whitespace run that follows, and scanning resumes
after the match. -/
def collapseBlankLines : List Char → List Char
  | [] => []
  | c :: rest =>
    if h : c = '\n' ∧ '\n' ∈ rest.takeWhile jsIsSpace then
      '\n' :: collapseBlankLines (afterLastNl (rest.takeWhile jsIsSpace) ++ rest.dropWhile jsIsSpace)
    else c :: collapseBlankLines rest
termination_by l => l.length
decreasing_by
  · have h1 := afterLastNl_length_lt _ h.2
    have h2 : (rest.takeWhile jsIsSpace).length + (rest.dropWhile jsIsSpace).length = rest.length := by
      rw [← List.length_append, List.takeWhile_append_dropWhile]
    simp only [List.length_append, List.length_cons]
    omega
  · simp only [List.length_cons]; omega

/-- ASCII word characters, the JavaScript `\w` class. -/
def isWordChar (c : Char) : Bool :=
  decide ('a' ≤ c ∧ c ≤ 'z') || decide ('A' ≤ c ∧ c ≤ 'Z') ||
    decide ('0' ≤ c ∧ c ≤ '9') || (c == '_')

/-- Punctuation kept by the cleaning regex: `.,!?;:-()[]` and the two
curly brackets. -/
def keptPunct : List Char :=
  ['.', ',', '!', '?', ';', ':', '-', '(', ')', '[', ']', Char.ofNat 123, Char.ofNat 125]

/-- Accented letters kept by the cleaning regex. -/
def keptAccented : List Char :=
  ['á', 'é', 'í', 'ó', 'ú', 'à', 'è', 'ì', 'ò', 'ù', 'â', 'ê', 'î', 'ô', 'û', 'ã', 'õ', 'ç',
   'Á', 'É', 'Í', 'Ó', 'Ú', 'À', 'È', 'Ì', 'Ò', 'Ù', 'Â', 'Ê', 'Î', 'Ô', 'Û', 'Ã', 'Õ', 'Ç']

/-- Characters surviving the second `replace` of `cleanOCRText`
(`[^\w\s..allow-list..]` is deleted). -/
def isAllowedChar (c : Char) : Bool :=
  isWordChar c || jsIsSpace c || keptPunct.contains c || keptAccented.contains c

/-- Second `replace` of `cleanOCRText`: delete every disallowed
character. -/
def stripDisallowed (l : List Char) : List Char := l.filter isAllowedChar

/-- Third `replace` of `cleanOCRText`: `replace(/\s+/g, ' ')`, collapsing
every maximal whitespace run to a single space. -/
def collapseWhitespace : List Char → List Char
  | [] => []
  | c :: rest =>
    if jsIsSpace c then ' ' :: collapseWhitespace (rest.dropWhile jsIsSpace)
    else c :: collapseWhitespace rest
termination_by l => l.length
decreasing_by
  · have := (List.dropWhile_sublist (p := jsIsSpace) (l := rest)).length_le
    simp only [List.length_cons]; omega
  · simp only [List.length_cons]; omega

/-- The queue module's `cleanOCRText`: collapse blank lines, strip
disallowed characters, normalise whitespace, trim. -/
def cleanOCRText (s : String) : String :=
  String.mk (trimChars (collapseWhitespace (stripDisallowed (collapseBlankLines s.data))))

/-- JavaScript `String.prototype.startsWith`. -/
def startsWithStr (pre s : String) : Bool := pre.data.isPrefixOf s.data

/-- JavaScript `String.prototype.includes` (substring containment). -/
def substrOf (needle hay : String) : Bool := decide (needle.data <:+: hay.data)

/-- Guard `mimeType.startsWith("image/")` used by both extractors and the
upload handler. -/
def isImageMime (m : String) : Bool := startsWithStr "image/" m

/-- Placeholder returned by the quick extractor for PDFs. -/
def pdfQuickText : String := "PDF detectado - processamento de texto em desenvolvimento"

/-- Sentinel returned by the quick extractor when mammoth fails on a
legacy Office document. -/
def officeFallbackQuick : String := "Documento Office detectado - texto requer processamento adicional"

/-- Placeholder returned by the advanced extractor for PDFs. -/
def pdfAdvancedText : String := "PDF processado - extração avançada de texto em desenvolvimento"

/-- Sentinel returned by the advanced extractor when mammoth fails on a
legacy Office document. -/
def officeFallbackAdvanced : String := "Documento Office - formato não suportado para extração automática"

/-- Message produced by the quick extractor's outer `catch`. -/
def extractionErrorText (e : String) : String := "Erro na extração de texto: " ++ e

/-- Body of the routes module's `extractText` before its outer `catch`
(the `ocr` and `mam` oracles stand for `tesseract.recognize` and
`mammoth.extractRawText`; image preprocessing failures are caught inside
the image branch and do not change the returned text). -/
def extractTextBody (mimeType : String) (ocr mam : Except String String) :
    Except String String :=
  if isImageMime mimeType then
    match ocr with
    | .ok t => .ok (jsTrim t)
    | .error e => .error e
  else if mimeType == "application/pdf" then .ok pdfQuickText
  else if substrOf "wordprocessingml" mimeType ||
      substrOf "application/vnd.openxmlformats-officedocument.wordprocessingml" mimeType then
    mam
  else if substrOf "document" mimeType || substrOf "word" mimeType ||
      substrOf "msword" mimeType then
    match mam with
    | .ok v => .ok v
    | .error _ => .ok officeFallbackQuick
  else .ok ""

/-- The routes module's `extractText` (quick pass): its whole body is
wrapped in a `try`/`catch` that converts any thrown error into a
descriptive string, so it never raises. -/
def extractText (mimeType : String) (ocr mam : Except String String) : String :=
  match extractTextBody mimeType ocr mam with
  | .ok t => t
  | .error e => extractionErrorText e

/-- The queue module's `extractTextAdvanced`: same branch structure, but
the image branch post-cleans with `cleanOCRText` and the outer `catch`
rethrows, so failures surface to the caller as `.error`. -/
def extractTextAdvanced (mimeType : String) (ocr mam : Except String String) :
    Except String String :=
  if isImageMime mimeType then
    match ocr with
    | .ok t => .ok (cleanOCRText t)
    | .error e => .error e
  else if mimeType == "application/pdf" then .ok pdfAdvancedText
  else if substrOf "wordprocessingml" mimeType ||
      substrOf "application/vnd.openxmlformats-officedocument.wordprocessingml" mimeType then
    mam
  else if substrOf "document" mimeType || substrOf "word" mimeType ||
      substrOf "msword" mimeType then
    match mam with
    | .ok v => .ok v
    | .error _ => .ok officeFallbackAdvanced
  else .ok ""

/-- Upload-handler condition deciding whether a freshly created document
is added to the OCR queue (routes module, POST `/api/documents`):
`file.mimetype.startsWith("image/") || (file.mimetype === "application/pdf"
&& (!quickText || quickText.length < 100))`. -/
def shouldEnqueueAtUpload (mimeType quickText : String) : Bool :=
  isImageMime mimeType ||
    (mimeType == "application/pdf" && (quickText.isEmpty || decide (quickText.length < 100)))

/-- One row of the `documents` table (shared schema). -/
structure DocRow where
  id : Nat
  title : String
  description : Option String
  subject : Option String
  tags : List String
  category : String
  department : Option String
  documentDate : Option Nat
  fileName : String
  originalName : String
  mimeType : String
  fileSize : Nat
  filePath : String
  extractedText : Option String
  ocrProcessed : Bool
  createdAt : Nat
  updatedAt : Nat
deriving DecidableEq

/-- Job status of the in-memory OCR queue. -/
inductive JobStatus
  | pending
  | processing
  | completed
  | failed
deriving DecidableEq

/-- One entry of the in-memory OCR queue. -/
structure QueueJob where
  id : String
  documentId : Nat
  filePath : String
  mimeType : String
  status : JobStatus
  createdAt : Nat
  processedAt : Option Nat
  error : Option String
deriving DecidableEq

/-- Job-id construction in `addJob`: the template string
`${documentId}-${Date.now()}`. -/
def mkJobId (documentId now : Nat) : String :=
  toString documentId ++ "-" ++ toString now

/-- The fresh job record pushed by `addJob`. -/
def mkJob (documentId : Nat) (filePath mimeType : String) (now : Nat) : QueueJob :=
  { id := mkJobId documentId now
    documentId := documentId
    filePath := filePath
    mimeType := mimeType
    status := .pending
    createdAt := now
    processedAt := none
    error := none }

/-- Combined process-local state: the queue array, the `processing`
guard flag, the worker loop's current job (the loop variable between the
`job.status = 'processing'` write and the job's finalisation;  `none`
when no iteration is mid-flight), and the document table reachable
through `storage`. -/
structure SystemState where
  queue : List QueueJob
  active : Bool
  working : Option Nat
  docs : List DocRow
deriving DecidableEq

/-- Effect of `storage.updateDocument(documentId, { extractedText,
ocrProcessed: true })` performed by the worker on success (the update
also refreshes `updatedAt`; a missing id updates nothing). -/
def updateDocExtraction (docs : List DocRow) (docId : Nat) (text : String) (now : Nat) :
    List DocRow :=
  docs.map fun d =>
    if d.id == docId then
      { d with extractedText := some text, ocrProcessed := true, updatedAt := now }
    else d

/-- Effect of `addJob` on the queue: push a pending job at the back. -/
def enqueueEffect (s : SystemState) (documentId : Nat) (filePath mimeType : String)
    (now : Nat) : SystemState :=
  { s with queue := s.queue ++ [mkJob documentId filePath mimeType now] }

/-- The worker's job selection `queue.find(j => j.status === 'pending')`,
as the index of the first pending job. -/
def findPendingIdx : List QueueJob → Option Nat
  | [] => none
  | j :: rest =>
    if j.status == .pending then some 0 else (findPendingIdx rest).map (· + 1)

/-- Effect of the `job.status = 'processing'` write at the top of a loop
iteration. -/
def markProcessing (s : SystemState) (i : Nat) : SystemState :=
  match s.queue.get? i with
  | some j => { s with queue := s.queue.set i { j with status := .processing }, working := some i }
  | none => s

/-- Effect of a successful iteration: write the extraction result to the
owning document, mark the job completed and stamp `processedAt`. -/
def finishOkEffect (s : SystemState) (i : Nat) (text : String) (now : Nat) : SystemState :=
  match s.queue.get? i with
  | some j =>
    { s with
      queue := s.queue.set i { j with status := .completed, processedAt := some now }
      docs := updateDocExtraction s.docs j.documentId text now
      working := none }
  | none => s

/-- Effect of a failed iteration (the `catch` block): mark the job
failed, record the error message and stamp `processedAt`; the document
table is untouched. -/
def finishErrEffect (s : SystemState) (i : Nat) (msg : String) (now : Nat) : SystemState :=
  match s.queue.get? i with
  | some j =>
    { s with
      queue := s.queue.set i
        { j with status := .failed, error := some msg, processedAt := some now }
      working := none }
  | none => s

/-- Retention predicate of the end-of-loop cleanup: keep pending and
processing jobs, and finished jobs whose `processedAt` is newer than
`Date.now() - 60*60*1000`. -/
def keepAfterCleanup (now : Nat) (j : QueueJob) : Bool :=
  j.status == .pending || j.status == .processing ||
    (match j.processedAt with
     | some t => decide (t > now - 3600000)
     | none => false)

/-- The cleanup filter run when the worker loop exits. -/
def cleanupQueue (now : Nat) (q : List QueueJob) : List QueueJob :=
  q.filter (keepAfterCleanup now)

/-- Effect of the worker loop exiting: purge old finished jobs and drop
the `processing` guard flag. -/
def endLoopEffect (s : SystemState) (now : Nat) : SystemState :=
  { s with queue := cleanupQueue now s.queue, active := false }

/-- `getJobStatus(jobId)`: `queue.find(j => j.id === jobId)` over a raw
job list. -/
def findJobById (q : List QueueJob) (jobId : String) : Option QueueJob :=
  q.find? (fun j => j.id == jobId)

/-- `getJobStatus` against the full state. -/
def getJobStatus (s : SystemState) (jobId : String) : Option QueueJob :=
  findJobById s.queue jobId

/-- Atomic events of the queue subsystem.  `enqueue` is `addJob` (from an
upload or a reprocess request); `startLoop` is an idle-to-active
transition of `processQueue` (guarded by the `processing` flag);
`pick` marks the first pending job as processing (the loop is
sequential, so no other iteration is mid-flight); `finish` resolves the
iteration by running the advanced extractor, whose external engines are
the step's oracles; `endLoop` is the loop exit with its cleanup sweep. -/
inductive Step : SystemState → SystemState → Prop
  | enqueue (s : SystemState) (documentId : Nat) (filePath mimeType : String) (now : Nat) :
      Step s (enqueueEffect s documentId filePath mimeType now)
  | startLoop (s : SystemState) :
      s.active = false →
      Step s { s with active := true }
  | pick (s : SystemState) (i : Nat) :
      s.active = true →
      s.working = none →
      findPendingIdx s.queue = some i →
      Step s (markProcessing s i)
  | finish (s : SystemState) (i : Nat) (ocr mam : Except String String) (now : Nat)
      (hw : s.working = some i) (hi : i < s.queue.length) :
      Step s
        (match extractTextAdvanced (s.queue.get ⟨i, hi⟩).mimeType ocr mam with
         | .ok t => finishOkEffect s i t now
         | .error e => finishErrEffect s i e now)
  | endLoop (s : SystemState) (now : Nat) :
      s.active = true →
      s.working = none →
      findPendingIdx s.queue = none →
      Step s (endLoopEffect s now)

/-- Initial state: empty queue, idle worker, given table contents. -/
def initState (docs0 : List DocRow) : SystemState :=
  { queue := [], active := false, working := none, docs := docs0 }

/-- States reachable by the queue subsystem from startup. -/
def Reachable (docs0 : List DocRow) (s : SystemState) : Prop :=
  Relation.ReflTransGen Step (initState docs0) s

/-- Number of jobs currently in `processing` state. -/
def countProcessing (q : List QueueJob) : Nat :=
  q.countP (fun j => j.status == .processing)

/-- JavaScript truthiness of an optional string parameter (absent and
empty are both falsy). -/
def optProvided : Option String → Bool
  | none => false
  | some s => !(s == "")

/-- SQL `LIKE`/`ILIKE` pattern matching over characters: `%` matches any
sequence (some suffix of the text matches the rest of the pattern), `_`
any single character, letters match case-insensitively (`ILIKE`).  The
pattern must cover the whole string. -/
def likeMatch : List Char → List Char → Bool
  | [], cs => cs.isEmpty
  | '%' :: ps, cs => cs.tails.any (fun suf => likeMatch ps suf)
  | '_' :: _, [] => false
  | '_' :: ps, _ :: cs => likeMatch ps cs
  | _ :: _, [] => false
  | p :: ps, c :: cs => (p.toLower == c.toLower) && likeMatch ps cs

/-- `ilike(column, '%' + query + '%')` with the query interpolated
unescaped, as built by `searchDocuments`. -/
def ilikeContains (q field : String) : Bool :=
  likeMatch ('%' :: (q.data ++ ['%'])) field.data

/-- `ilike` against a nullable column: SQL comparisons with NULL are not
true. -/
def optIlike (q : String) : Option String → Bool
  | none => false
  | some s => ilikeContains q s

/-- The free-text condition pushed for `query`: `or(ilike(title),
ilike(description), ilike(subject), ilike(extractedText))`. -/
def queryCond (q : String) (d : DocRow) : Bool :=
  ilikeContains q d.title || optIlike q d.description ||
    optIlike q d.subject || optIlike q d.extractedText

/-- Search parameters after zod parsing (date strings are represented by
their parsed timestamps; an absent or empty date string yields `none`). -/
structure SearchParams where
  query : Option String
  category : Option String
  department : Option String
  dateFrom : Option Nat
  dateTo : Option Nat
  page : Nat
  limit : Nat
  sortBy : String
deriving DecidableEq

/-- The `whereConditions` array built by `searchDocuments`, in push
order: free-text query, category equality, department equality,
inclusive dateFrom, inclusive dateTo.  Conditions are pushed only for
truthy parameters. -/
def whereConds (p : SearchParams) : List (DocRow → Bool) :=
  (match p.query with
   | some q => if q == "" then [] else [queryCond q]
   | none => []) ++
  (match p.category with
   | some c => if c == "" then [] else [fun d => d.category == c]
   | none => []) ++
  (match p.department with
   | some dep =>
     if dep == "" then []
     else [fun d => match d.department with
                    | some x => x == dep
                    | none => false]
   | none => []) ++
  (match p.dateFrom with
   | some t0 => [fun d => match d.documentDate with
                          | some t => decide (t0 ≤ t)
                          | none => false]
   | none => []) ++
  (match p.dateTo with
   | some t1 => [fun d => match d.documentDate with
                          | some t => decide (t ≤ t1)
                          | none => false]
   | none => [])

/-- `and(...whereConditions)` (an empty list means no restriction). -/
def whereClause (p : SearchParams) (d : DocRow) : Bool :=
  (whereConds p).all (fun c => c d)

/-- Ascending comparison on a nullable timestamp column with PostgreSQL
default null placement for ASC (nulls last: NULL compares greatest). -/
def nullsLastLe : Option Nat → Option Nat → Bool
  | none, none => true
  | none, some _ => false
  | some _, none => true
  | some a, some b => decide (a ≤ b)

/-- The `orderBy` comparison selected by the `sortBy` switch: document
date descending, document date ascending, title ascending, file size
descending, and by default (`relevance` included) creation timestamp
descending. -/
def sortRel (key : String) : DocRow → DocRow → Bool :=
  if key == "date-desc" then fun a b => nullsLastLe b.documentDate a.documentDate
  else if key == "date-asc" then fun a b => nullsLastLe a.documentDate b.documentDate
  else if key == "title" then fun a b => decide (a.title ≤ b.title)
  else if key == "size" then fun a b => decide (b.fileSize ≤ a.fileSize)
  else fun a b => decide (b.createdAt ≤ a.createdAt)

/-- Result shape of `searchDocuments`. -/
structure SearchResult where
  documents : List DocRow
  total : Nat
deriving DecidableEq

/-- Insertion into a list ordered by a Boolean comparison. -/
def insertSorted {α : Type} (le : α → α → Bool) (a : α) : List α → List α
  | [] => [a]
  | b :: l => if le a b then a :: b :: l else b :: insertSorted le a l

/-- Insertion sort by a Boolean comparison, standing for the SQL
`ORDER BY` (any order-respecting permutation is an admissible model). -/
def sortByRel {α : Type} (le : α → α → Bool) : List α → List α
  | [] => []
  | a :: l => insertSorted le a (sortByRel le l)

/-- The storage layer's `searchDocuments`: filter the table by the
composed where clause, order by the selected key, paginate with offset
`(page - 1) * limit`, and count the filtered rows with a second query
over the same clause. -/
def searchDocuments (table : List DocRow) (p : SearchParams) : SearchResult :=
  let filtered := table.filter (whereClause p)
  let sorted := sortByRel (sortRel p.sortBy) filtered
  { documents := (sorted.drop ((p.page - 1) * p.limit)).take p.limit
    total := filtered.length }

/-- JSON-level outcome of an API handler (HTTP status, message, job id
if any). -/
structure ApiResponse where
  status : Nat
  message : Option String
  jobId : Option String
deriving DecidableEq

/-- The POST `/api/documents/:id/reprocess` handler: look the document
up, 404 when missing, 404 `"File not found on disk"` when the stored
file is absent (queue untouched), otherwise enqueue a job and answer
with its id.  `doc` is the storage lookup result and `fsExists` models
`fs.existsSync`. -/
def reprocessHandler (doc : Option DocRow) (fsExists : String → Bool)
    (s : SystemState) (now : Nat) : ApiResponse × SystemState :=
  match doc with
  | none => ({ status := 404, message := some "Document not found", jobId := none }, s)
  | some d =>
    if !(fsExists d.filePath) then
      ({ status := 404, message := some "File not found on disk", jobId := none }, s)
    else
      ({ status := 200
         message := some "Document queued for reprocessing"
         jobId := some (mkJobId d.id now) },
       enqueueEffect s d.id d.filePath d.mimeType now)

/-- Allowed per-step status changes of one job record: unchanged, or one
edge of pending → processing → (completed | failed). -/
def statusStepOk (a b : JobStatus) : Bool :=
  a == b || (a == .pending && b == .processing) ||
    (a == .processing && (b == .completed || b == .failed))

/-- Identity fields of a job record that no step may rewrite. -/
def sameJobCore (j j' : QueueJob) : Bool :=
  j.id == j'.id && j.documentId == j'.documentId && j.filePath == j'.filePath &&
    j.mimeType == j'.mimeType && j.createdAt == j'.createdAt

/-- How one step may transform the job list: leave it alone, append one
pending job, rewrite one record forward along the status order keeping
its identity fields, or run the cleanup sweep. -/
inductive QueueEvolves : List QueueJob → List QueueJob → Prop
  | same (q : List QueueJob) : QueueEvolves q q
  | push (q : List QueueJob) (j : QueueJob) :
      j.status = .pending → QueueEvolves q (q ++ [j])
  | modify (q : List QueueJob) (i : Nat) (j' : QueueJob) (hi : i < q.length) :
      sameJobCore q[i] j' = true →
      statusStepOk q[i].status j'.status = true →
      QueueEvolves q (q.set i j')
  | sweep (q : List QueueJob) (now : Nat) : QueueEvolves q (cleanupQueue now q)

/-- Modelled from the spec's words for comparison: case-insensitive
substring matching (the reading "free-text query matches as a
case-insensitive substring"). -/
def isSubstrCI (q s : String) : Bool :=
  decide ((q.data.map Char.toLower) <:+: (s.data.map Char.toLower))

/-- Modelled from the spec's words for comparison: the free-text filter
read as a case-insensitive substring match OR-ed across title,
description, subject and extracted text. -/
def querySubstrSpec (q : String) (d : DocRow) : Bool :=
  isSubstrCI q d.title ||
    (match d.description with
     | some s => isSubstrCI q s
     | none => false) ||
    (match d.subject with
     | some s => isSubstrCI q s
     | none => false) ||
    (match d.extractedText with
     | some s => isSubstrCI q s
     | none => false)

/-- Modelled from the spec's words for comparison: the search filter as
an explicit conjunction of the individual provided filters (free text,
exact category, exact department, inclusive date bounds). -/
def searchFilterSpec (p : SearchParams) (d : DocRow) : Bool :=
  (match p.query with
   | some q => if q == "" then true else queryCond q d
   | none => true) &&
  (match p.category with
   | some c => if c == "" then true else d.category == c
   | none => true) &&
  (match p.department with
   | some dep =>
     if dep == "" then true
     else match d.department with
          | some x => x == dep
          | none => false
   | none => true) &&
  (match p.dateFrom with
   | some t0 => match d.documentDate with
                | some t => decide (t0 ≤ t)
                | none => false
   | none => true) &&
  (match p.dateTo with
   | some t1 => match d.documentDate with
                | some t => decide (t ≤ t1)
                | none => false
   | none => true)

/-- No search filter was provided (all five filter parameters absent). -/
def noFiltersProvided (p : SearchParams) : Prop :=
  p.query = none ∧ p.category = none ∧ p.department = none ∧
    p.dateFrom = none ∧ p.dateTo = none

/-- Adjacent characters are never both whitespace. -/
def noAdjSpace : List Char → Bool
  | [] => true
  | [_] => true
  | a :: b :: rest => (!(jsIsSpace a && jsIsSpace b)) && noAdjSpace (b :: rest)

/-- The first character, if any, is not whitespace. -/
def headNotSpace : List Char → Bool
  | [] => true
  | c :: _ => !jsIsSpace c

/-- The last character, if any, is not whitespace. -/
def lastNotSpace : List Char → Bool
  | [] => true
  | [c] => !jsIsSpace c
  | _ :: rest => lastNotSpace rest

/-- C1 counterexample: a JPEG upload whose quick-pass text already has
100 characters is still enqueued, so "a job is created at upload if and
only if the quick-pass text is shorter than 100 characters" is false for
JPEG images. -/
theorem c1_counterexample :
    shouldEnqueueAtUpload "image/jpeg" (String.mk (List.replicate 100 'a')) = true ∧
      ¬((String.mk (List.replicate 100 'a')).length < 100) := by
  constructor
  · decide
  · decide

/-- C1 amended: after uploading a JPEG image a background
extraction-queue job is always created, regardless of the quick-pass
text; the shorter-than-100-characters (or absent) condition governs only
PDF uploads; Word documents are never enqueued at upload. -/
theorem c1_amended (t : String) :
    shouldEnqueueAtUpload "image/jpeg" t = true ∧
      shouldEnqueueAtUpload "application/pdf" t = decide (t.length < 100) ∧
      shouldEnqueueAtUpload
        "application/vnd.openxmlformats-officedocument.wordprocessingml.document" t = false ∧
      shouldEnqueueAtUpload "application/msword" t = false := by
  refine ⟨?_, ?_, ?_, ?_⟩
  · have h : isImageMime "image/jpeg" = true := by decide
    simp [shouldEnqueueAtUpload, h]
  · have h : isImageMime "application/pdf" = false := by decide
    have hpdf : ("application/pdf" == "application/pdf") = true := by decide
    simp only [shouldEnqueueAtUpload, h, Bool.false_or, hpdf, Bool.true_and]
    by_cases he : t.isEmpty = true
    · have ht : t = "" := (String.isEmpty_iff t).mp he
      subst ht; decide
    · have ht : t.isEmpty = false := by
        cases hb : t.isEmpty
        · rfl
        · exact absurd hb he
      rw [ht, Bool.false_or]
  · have h1 : isImageMime
        "application/vnd.openxmlformats-officedocument.wordprocessingml.document" = false := by
      decide
    have h2 : ("application/vnd.openxmlformats-officedocument.wordprocessingml.document" ==
        "application/pdf") = false := by decide
    simp [shouldEnqueueAtUpload, h1, h2]
  · have h1 : isImageMime "application/msword" = false := by decide
    have h2 : ("application/msword" == "application/pdf") = false := by decide
    simp [shouldEnqueueAtUpload, h1, h2]

/-- C7 counterexample: for the word-processing media type (docx), a
mammoth failure is rethrown by the advanced extractor (it raises past
its boundary instead of returning a sentinel), and the quick extractor
converts it into the generic extraction-error string, not the
"unsupported format" sentinel. -/
theorem c7_counterexample :
    extractTextAdvanced
        "application/vnd.openxmlformats-officedocument.wordprocessingml.document"
        (.ok "") (.error "boom") = .error "boom" ∧
      extractText
        "application/vnd.openxmlformats-officedocument.wordprocessingml.document"
        (.ok "") (.error "boom") = extractionErrorText "boom" ∧
      extractText
        "application/vnd.openxmlformats-officedocument.wordprocessingml.document"
        (.ok "") (.error "boom") ≠ officeFallbackQuick := by
  refine ⟨by rfl, by decide, by decide⟩

/-- C7 amended: extraction performs direct raw-text extraction for Word
media types; on failure, only the legacy Office branch
(`document`/`word`/`msword` types that are not `wordprocessingml`)
returns the fixed "unsupported format" sentinel.  For the modern
`wordprocessingml` type a failure is not caught in its branch: the quick
pass returns the generic extraction-error string (never raising), and
the advanced pass rethrows the error to its caller. -/
theorem c7_amended (v e : String) (ocr : Except String String) :
    extractText
        "application/vnd.openxmlformats-officedocument.wordprocessingml.document"
        ocr (.ok v) = v ∧
      extractTextAdvanced
        "application/vnd.openxmlformats-officedocument.wordprocessingml.document"
        ocr (.ok v) = .ok v ∧
      extractText
        "application/vnd.openxmlformats-officedocument.wordprocessingml.document"
        ocr (.error e) = extractionErrorText e ∧
      extractTextAdvanced
        "application/vnd.openxmlformats-officedocument.wordprocessingml.document"
        ocr (.error e) = .error e ∧
      extractText "application/msword" ocr (.ok v) = v ∧
      extractTextAdvanced "application/msword" ocr (.ok v) = .ok v ∧
      extractText "application/msword" ocr (.error e) = officeFallbackQuick ∧
      extractTextAdvanced "application/msword" ocr (.error e) = .ok officeFallbackAdvanced := by
  have hi1 : isImageMime
      "application/vnd.openxmlformats-officedocument.wordprocessingml.document" = false := by
    decide
  have hp1 : ("application/vnd.openxmlformats-officedocument.wordprocessingml.document" ==
      "application/pdf") = false := by decide
  have hw1 : substrOf "wordprocessingml"
      "application/vnd.openxmlformats-officedocument.wordprocessingml.document" = true := by
    decide
  have hi2 : isImageMime "application/msword" = false := by decide
  have hp2 : ("application/msword" == "application/pdf") = false := by decide
  have hw2 : substrOf "wordprocessingml" "application/msword" = false := by decide
  have hw3 : substrOf "application/vnd.openxmlformats-officedocument.wordprocessingml"
      "application/msword" = false := by decide
  have hw4 : substrOf "word" "application/msword" = true := by decide
  have hd2 : substrOf "document" "application/msword" = false := by decide
  refine ⟨?_, ?_, ?_, ?_, ?_, ?_, ?_, ?_⟩ <;>
    simp [extractText, extractTextBody, extractTextAdvanced,
      hi1, hp1, hw1, hi2, hp2, hw2, hw3, hw4, hd2]

/-- C9: a reprocess request for an existing document whose stored file is
absent from disk answers 404 with message "File not found on disk" and
leaves the whole state — in particular the queue — unchanged. -/
theorem c9_reprocess_missing_file (d : DocRow) (fsExists : String → Bool)
    (s : SystemState) (now : Nat) (h : fsExists d.filePath = false) :
    reprocessHandler (some d) fsExists s now =
      ({ status := 404, message := some "File not found on disk", jobId := none }, s) := by
  simp [reprocessHandler, h]

/-- Example document row used by concrete witnesses. -/
def docEx : DocRow :=
  { id := 7, title := "Contract A", description := none, subject := none, tags := []
    category := "contrato", department := none, documentDate := some 500
    fileName := "f.pdf", originalName := "o.pdf", mimeType := "application/pdf"
    fileSize := 3, filePath := "/uploads/f.pdf", extractedText := none
    ocrProcessed := false, createdAt := 1, updatedAt := 1 }

/-- C9 witness: the theorem applied to a concrete document, missing
file, and initial state. -/
theorem c9_witness :
    reprocessHandler (some docEx) (fun _ => false) (initState []) 0 =
      ({ status := 404, message := some "File not found on disk", jobId := none },
        initState []) :=
  c9_reprocess_missing_file docEx (fun _ => false) (initState []) 0 rfl

/-- Unfolding of the cleanup retention predicate into a proposition. -/
theorem keepAfterCleanup_iff (now : Nat) (j : QueueJob) :
    keepAfterCleanup now j = true ↔
      (j.status = .pending ∨ j.status = .processing ∨
        ∃ t, j.processedAt = some t ∧ now - 3600000 < t) := by
  unfold keepAfterCleanup
  cases hs : j.status <;> cases hp : j.processedAt <;>
    simp [hs, hp]

/-- C8: the end-of-loop cleanup keeps exactly the pending jobs, the
processing jobs, and the finished jobs completed within the one-hour
retention window; every completed or failed job whose completion time is
older than the window is purged, so a status query for an id carried
only by purged jobs answers nothing; pending and processing jobs are
never purged. -/
theorem c8_cleanup_purges_old_finished_jobs (now : Nat) (q : List QueueJob) :
    (∀ j, j ∈ cleanupQueue now q ↔
        j ∈ q ∧ (j.status = .pending ∨ j.status = .processing ∨
          ∃ t, j.processedAt = some t ∧ now - 3600000 < t)) ∧
      (∀ j ∈ q, (j.status = .pending ∨ j.status = .processing) →
        j ∈ cleanupQueue now q) ∧
      (∀ j ∈ q, (j.status = .completed ∨ j.status = .failed) →
        (∀ t, j.processedAt = some t → t ≤ now - 3600000) →
        j ∉ cleanupQueue now q) ∧
      (∀ i : String, (∀ j ∈ q, j.id = i → keepAfterCleanup now j = false) →
        findJobById (cleanupQueue now q) i = none) ∧
      (∀ s : SystemState, s.queue = q → (endLoopEffect s now).queue = cleanupQueue now q) := by
  refine ⟨?_, ?_, ?_, ?_, ?_⟩
  · intro j
    rw [cleanupQueue, List.mem_filter, keepAfterCleanup_iff]
  · intro j hj hst
    rw [cleanupQueue, List.mem_filter, keepAfterCleanup_iff]
    exact ⟨hj, Or.imp_right Or.inl hst⟩
  · intro j hj hst hold hmem
    rw [cleanupQueue, List.mem_filter, keepAfterCleanup_iff] at hmem
    rcases hmem.2 with h1 | h2 | ⟨t, ht, hgt⟩
    · rcases hst with h | h <;> rw [h] at h1 <;> cases h1
    · rcases hst with h | h <;> rw [h] at h2 <;> cases h2
    · exact absurd hgt (Nat.not_lt.mpr (hold t ht))
  · intro i hall
    rw [findJobById, List.find?_eq_none]
    intro x hx
    rw [cleanupQueue, List.mem_filter] at hx
    intro hbeq
    have hid : x.id = i := by
      exact eq_of_beq hbeq
    rw [hall x hx.1 hid] at hx
    cases hx.2
  · intro s hs
    simp [endLoopEffect, hs]

/-- Completed job that is an hour stale, used by concrete witnesses. -/
def jobDone : QueueJob :=
  { id := "7-1", documentId := 7, filePath := "/u", mimeType := "image/png"
    status := .completed, createdAt := 1, processedAt := some 0, error := none }

/-- Pending job used by concrete witnesses. -/
def jobPend : QueueJob :=
  { id := "8-2", documentId := 8, filePath := "/u", mimeType := "image/png"
    status := .pending, createdAt := 2, processedAt := none, error := none }

/-- C8 witness: with the clock one hour past the completion time, the
stale completed job is purged while the pending job survives. -/
theorem c8_witness :
    jobDone ∉ cleanupQueue 10000000 [jobDone, jobPend] ∧
      jobPend ∈ cleanupQueue 10000000 [jobDone, jobPend] := by
  constructor
  · exact (c8_cleanup_purges_old_finished_jobs 10000000 [jobDone, jobPend]).2.2.1 jobDone
      (by decide) (Or.inl rfl)
      (by intro t ht; simp only [jobDone, Option.some.injEq] at ht; omega)
  · exact (c8_cleanup_purges_old_finished_jobs 10000000 [jobDone, jobPend]).2.1 jobPend
      (by decide) (Or.inl rfl)

/-- C2: resolving a job whose advanced extraction succeeds replaces the
owning document's extracted text with the result and sets its
OCR-processed flag true while marking the job completed; a failing
extraction marks the job failed with the error message and leaves the
document table — hence the document's extracted text and flag —
completely unchanged. -/
theorem c2_worker_finish (s : SystemState) (i : Nat) (ocr mam : Except String String)
    (now : Nat) (hw : s.working = some i) (hi : i < s.queue.length) :
    (∀ t, extractTextAdvanced (s.queue.get ⟨i, hi⟩).mimeType ocr mam = .ok t →
        Step s (finishOkEffect s i t now) ∧
        (finishOkEffect s i t now).queue[i]? =
          some { s.queue.get ⟨i, hi⟩ with status := .completed, processedAt := some now } ∧
        (finishOkEffect s i t now).docs =
          updateDocExtraction s.docs (s.queue.get ⟨i, hi⟩).documentId t now ∧
        (∀ d ∈ s.docs, d.id = (s.queue.get ⟨i, hi⟩).documentId →
          { d with extractedText := some t, ocrProcessed := true, updatedAt := now } ∈
            (finishOkEffect s i t now).docs)) ∧
      (∀ e, extractTextAdvanced (s.queue.get ⟨i, hi⟩).mimeType ocr mam = .error e →
        Step s (finishErrEffect s i e now) ∧
        (finishErrEffect s i e now).queue[i]? =
          some { s.queue.get ⟨i, hi⟩ with status := .failed, error := some e, processedAt := some now } ∧
        (finishErrEffect s i e now).docs = s.docs) := by
  have hq : s.queue.get? i = some (s.queue.get ⟨i, hi⟩) := by
    rw [List.get?_eq_getElem?, List.getElem?_eq_getElem hi]
    rfl
  constructor
  · intro t hext
    have hstep := Step.finish s i ocr mam now hw hi
    rw [hext] at hstep
    refine ⟨hstep, ?_, ?_, ?_⟩
    · simp only [finishOkEffect, hq]
      exact List.getElem?_set_self hi
    · simp only [finishOkEffect, hq]
    · intro d hd hid
      simp only [finishOkEffect, hq, updateDocExtraction]
      have hbeq : (d.id == (s.queue.get ⟨i, hi⟩).documentId) = true := beq_iff_eq.mpr hid
      have := List.mem_map_of_mem
        (f := fun d : DocRow =>
          if d.id == (s.queue.get ⟨i, hi⟩).documentId then
            { d with extractedText := some t, ocrProcessed := true, updatedAt := now }
          else d) hd
      simpa [hbeq, hid] using this
  · intro e hext
    have hstep := Step.finish s i ocr mam now hw hi
    rw [hext] at hstep
    refine ⟨hstep, ?_, ?_⟩
    · simp only [finishErrEffect, hq]
      exact List.getElem?_set_self hi
    · simp only [finishErrEffect, hq]

/-- Processing job used by concrete witnesses. -/
def jobW : QueueJob :=
  { id := "7-3", documentId := 7, filePath := "/u", mimeType := "application/msword"
    status := .processing, createdAt := 3, processedAt := none, error := none }

/-- Mid-iteration state used by concrete witnesses: one processing job,
the worker flag raised, one document on file. -/
def sEx2 : SystemState :=
  { queue := [jobW], active := true, working := some 0, docs := [docEx] }

/-- C2 witness: the theorem applied at a concrete mid-iteration state
with a successful legacy-Office extraction. -/
theorem c2_witness :
    (finishOkEffect sEx2 0 "texto" 9).queue[0]? =
        some { jobW with status := .completed, processedAt := some 9 } ∧
      (finishOkEffect sEx2 0 "texto" 9).docs =
        updateDocExtraction sEx2.docs 7 "texto" 9 := by
  have h := (c2_worker_finish sEx2 0 (.ok "") (.ok "texto") 9 rfl (by decide)).1 "texto" rfl
  exact ⟨h.2.1, h.2.2.1⟩


/-- A Boolean predicate holding at no more than one index of a list
bounds the matching count by one. -/
theorem countP_le_one_of_unique {α : Type} (p : α → Bool) :
    ∀ l : List α,
      (∀ i j (hi : i < l.length) (hj : j < l.length),
        p l[i] = true → p l[j] = true → i = j) →
      l.countP p ≤ 1 := by
  intro l
  induction l with
  | nil => intro _; simp
  | cons a t ih =>
    intro h
    rw [List.countP_cons]
    by_cases hp : p a = true
    · have ht : t.countP p = 0 := by
        rw [List.countP_eq_zero]
        intro x hx hpx
        rcases List.mem_iff_getElem.mp hx with ⟨k, hk, rfl⟩
        have h0 := h (k + 1) 0 (by simpa using Nat.succ_lt_succ hk) (by simp)
          (by simpa using hpx) (by simpa using hp)
        omega
      simp [ht, hp]
    · have hple : t.countP p ≤ 1 := by
        apply ih
        intro i j hi hj hpi hpj
        have h0 := h (i + 1) (j + 1) (by simpa using Nat.succ_lt_succ hi)
          (by simpa using Nat.succ_lt_succ hj) (by simpa using hpi) (by simpa using hpj)
        omega
      simp [hp]
      exact hple

/-- A successful `findPendingIdx` yields an in-bounds index holding a
pending job. -/
theorem findPendingIdx_spec : ∀ (q : List QueueJob) (i : Nat), findPendingIdx q = some i →
    ∃ hi : i < q.length, q[i].status = .pending := by
  intro q
  induction q with
  | nil => intro i h; cases h
  | cons j rest ih =>
    intro i h
    by_cases hp : (j.status == JobStatus.pending) = true
    · rw [findPendingIdx, if_pos hp] at h
      cases h
      exact ⟨by simp, by simpa using beq_iff_eq.mp hp⟩
    · rw [findPendingIdx, if_neg hp] at h
      cases hrec : findPendingIdx rest with
      | none => rw [hrec] at h; cases h
      | some k =>
        rw [hrec] at h
        simp only [Option.map_some'] at h
        cases h
        obtain ⟨hk, hst⟩ := ih k hrec
        exact ⟨by simpa using Nat.succ_lt_succ hk, by simpa using hst⟩

/-- Worker-loop invariant: when no iteration is mid-flight no job is in
processing state, and a mid-flight iteration implies the guard flag is
up and its job index is the only processing one. -/
def QueueInv (s : SystemState) : Prop :=
  (s.working = none → ∀ j ∈ s.queue, j.status ≠ .processing) ∧
  (∀ i, s.working = some i → s.active = true ∧
    ∃ hi : i < s.queue.length, s.queue[i].status = .processing ∧
      ∀ k (hk : k < s.queue.length), s.queue[k].status = .processing → k = i)

/-- Appending a pending job preserves the worker-loop invariant. -/
theorem queueInv_append_pending {s : SystemState} (j0 : QueueJob)
    (hj0 : j0.status = .pending) (hinv : QueueInv s) :
    QueueInv { s with queue := s.queue ++ [j0] } := by
  constructor
  · intro hw j hj
    rcases List.mem_append.mp hj with hj | hj
    · exact hinv.1 hw j hj
    · rcases List.mem_singleton.mp hj with rfl
      rw [hj0]
      intro hc
      cases hc
  · intro i hw
    obtain ⟨ha, hi, hst, hu⟩ := hinv.2 i hw
    refine ⟨ha, ?_⟩
    have hi' : i < (s.queue ++ [j0]).length := by
      simp only [List.length_append, List.length_singleton]
      omega
    refine ⟨hi', ?_, ?_⟩
    · rw [List.getElem_append_left hi]
      exact hst
    · intro k hk hkst
      by_cases hklt : k < s.queue.length
      · rw [List.getElem_append_left hklt] at hkst
        exact hu k hklt hkst
      · have hkeq : k = s.queue.length := by
          simp only [List.length_append, List.length_singleton] at hk
          omega
        rw [List.getElem_concat_length _ _ _ hkeq] at hkst
        rw [hj0] at hkst
        cases hkst

/-- Marking the first pending job as processing from an idle loop state
preserves the worker-loop invariant. -/
theorem queueInv_mark {s : SystemState} (i : Nat) (ha : s.active = true)
    (hw : s.working = none) (hi : i < s.queue.length) (j1 : QueueJob)
    (hj1 : j1.status = .processing) (hinv : QueueInv s) :
    QueueInv { s with queue := s.queue.set i j1, working := some i } := by
  constructor
  · intro hww
    cases hww
  · intro i' hww
    cases hww
    refine ⟨ha, ?_⟩
    have hlen : i < (s.queue.set i j1).length := by simpa using hi
    refine ⟨hlen, ?_, ?_⟩
    · rw [List.getElem_set, if_pos rfl]
      exact hj1
    · intro k hk hkst
      by_cases hki : k = i
      · exact hki
      · rw [List.getElem_set, if_neg (fun hik => hki hik.symm)] at hkst
        have hk' : k < s.queue.length := by simpa using hk
        exact absurd hkst (hinv.1 hw _ (List.getElem_mem hk'))

/-- Finalising the mid-flight job (to completed or failed) preserves the
worker-loop invariant. -/
theorem queueInv_finalize {s : SystemState} (i : Nat) (hw : s.working = some i)
    (j1 : QueueJob) (hj1 : j1.status ≠ .processing) (docs1 : List DocRow)
    (hinv : QueueInv s) :
    QueueInv { s with queue := s.queue.set i j1, working := none, docs := docs1 } := by
  obtain ⟨ha, hi, hst, hu⟩ := hinv.2 i hw
  constructor
  · intro _ j hj
    rcases List.mem_iff_getElem.mp hj with ⟨k, hk, rfl⟩
    by_cases hki : k = i
    · subst hki
      rw [List.getElem_set, if_pos rfl]
      exact hj1
    · rw [List.getElem_set, if_neg (fun hik => hki hik.symm)]
      intro hkst
      have hk' : k < s.queue.length := by simpa using hk
      exact hki (hu k hk' hkst)
  · intro i' hww
    cases hww

/-- The worker-loop invariant is preserved by every step. -/
theorem inv_preserved {s s' : SystemState} (hstep : Step s s') (hinv : QueueInv s) :
    QueueInv s' := by
  cases hstep with
  | enqueue documentId filePath mimeType now =>
    exact queueInv_append_pending _ rfl hinv
  | startLoop ha =>
    constructor
    · intro hw j hj
      exact hinv.1 hw j hj
    · intro i hw
      obtain ⟨_, hrest⟩ := hinv.2 i hw
      exact ⟨rfl, hrest⟩
  | pick i ha hw hfind =>
    obtain ⟨hi, hpend⟩ := findPendingIdx_spec _ _ hfind
    have hq : s.queue.get? i = some (s.queue.get ⟨i, hi⟩) := by
      rw [List.get?_eq_getElem?, List.getElem?_eq_getElem hi]
      rfl
    have hms : markProcessing s i =
        { s with queue := s.queue.set i { s.queue.get ⟨i, hi⟩ with status := .processing },
                 working := some i } := by
      rw [markProcessing, hq]
    rw [hms]
    exact queueInv_mark i ha hw hi _ rfl hinv
  | finish i ocr mam now hw hi =>
    have hq : s.queue.get? i = some (s.queue.get ⟨i, hi⟩) := by
      rw [List.get?_eq_getElem?, List.getElem?_eq_getElem hi]
      rfl
    cases hext : extractTextAdvanced (s.queue.get ⟨i, hi⟩).mimeType ocr mam with
    | ok t =>
      have hfe : finishOkEffect s i t now =
          { s with
            queue := s.queue.set i
              { s.queue.get ⟨i, hi⟩ with status := .completed, processedAt := some now },
            working := none,
            docs := updateDocExtraction s.docs (s.queue.get ⟨i, hi⟩).documentId t now } := by
        rw [finishOkEffect, hq]
      show QueueInv (finishOkEffect s i t now)
      rw [hfe]
      exact queueInv_finalize i hw _ (by intro hc; cases hc) _ hinv
    | error e =>
      have hfe : finishErrEffect s i e now =
          { s with
            queue := s.queue.set i
              { s.queue.get ⟨i, hi⟩ with status := .failed, error := some e, processedAt := some now },
            working := none,
            docs := s.docs } := by
        rw [finishErrEffect, hq]
      show QueueInv (finishErrEffect s i e now)
      rw [hfe]
      exact queueInv_finalize i hw _ (by intro hc; cases hc) _ hinv
  | endLoop now ha hw hnone =>
    constructor
    · intro _ j hj
      have hj' : j ∈ s.queue := (List.mem_filter.mp hj).1
      exact hinv.1 hw j hj'
    · intro i' hww
      simp only [endLoopEffect] at hww
      rw [hw] at hww
      cases hww

/-- Every reachable state satisfies the worker-loop invariant. -/
theorem inv_reachable {docs0 : List DocRow} {s : SystemState}
    (h : Reachable docs0 s) : QueueInv s := by
  induction h with
  | refl =>
    constructor
    · intro _ j hj
      cases hj
    · intro i hi
      cases hi
  | tail hr hstep ih => exact inv_preserved hstep ih

/-- C3: in every reachable state of the queue subsystem, at most one job
is in processing state, regardless of how many jobs were enqueued and in
what interleaving. -/
theorem c3_at_most_one_processing (docs0 : List DocRow) (s : SystemState)
    (h : Reachable docs0 s) : countProcessing s.queue ≤ 1 := by
  have hinv := inv_reachable h
  cases hww : s.working with
  | none =>
    rw [countProcessing]
    have h0 : s.queue.countP (fun j => j.status == .processing) = 0 := by
      rw [List.countP_eq_zero]
      intro j hj
      simpa using hinv.1 hww j hj
    omega
  | some i =>
    obtain ⟨_, hi, _, hu⟩ := hinv.2 i hww
    apply countP_le_one_of_unique
    intro a b ha hb hpa hpb
    have h1 := hu a ha (by simpa using hpa)
    have h2 := hu b hb (by simpa using hpb)
    omega

/-- C3 witness: a concrete three-step run (enqueue, loop start, pick)
reaching a state with one processing job. -/
theorem c3_witness :
    countProcessing
      (markProcessing
        { enqueueEffect (initState []) 1 "/u" "image/png" 5 with active := true } 0).queue ≤ 1 :=
  c3_at_most_one_processing [] _
    (Relation.ReflTransGen.tail
      (Relation.ReflTransGen.tail
        (Relation.ReflTransGen.tail Relation.ReflTransGen.refl
          (Step.enqueue (initState []) 1 "/u" "image/png" 5))
        (Step.startLoop (enqueueEffect (initState []) 1 "/u" "image/png" 5) rfl))
      (Step.pick { enqueueEffect (initState []) 1 "/u" "image/png" 5 with active := true } 0
        rfl rfl rfl))

/-- `statusStepOk` is reflexive. -/
theorem statusStepOk_refl (a : JobStatus) : statusStepOk a a = true := by
  simp [statusStepOk]

/-- `sameJobCore` is reflexive. -/
theorem sameJobCore_refl (j : QueueJob) : sameJobCore j j = true := by
  simp [sameJobCore]

/-- A sequence of `addJob` calls, each given by (documentId, filePath,
mimeType, timestamp). -/
def enqueueMany (s : SystemState) (es : List (Nat × String × String × Nat)) : SystemState :=
  es.foldl (fun st e => enqueueEffect st e.1 e.2.1 e.2.2.1 e.2.2.2) s

/-- The job records produced by a sequence of `addJob` calls. -/
def jobsOf (es : List (Nat × String × String × Nat)) : List QueueJob :=
  es.map (fun e => mkJob e.1 e.2.1 e.2.2.1 e.2.2.2)

/-- Enqueueing appends exactly the corresponding job records. -/
theorem enqueueMany_queue :
    ∀ (es : List (Nat × String × String × Nat)) (s : SystemState),
      (enqueueMany s es).queue = s.queue ++ jobsOf es := by
  intro es
  induction es with
  | nil => intro s; simp [enqueueMany, jobsOf]
  | cons e rest ih =>
    intro s
    have h1 : enqueueMany s (e :: rest) =
        enqueueMany (enqueueEffect s e.1 e.2.1 e.2.2.1 e.2.2.2) rest := rfl
    rw [h1, ih]
    simp [enqueueEffect, jobsOf]

/-- Over a queue with pairwise distinct job ids, the status query finds
each member record itself. -/
theorem find_by_id_of_nodup :
    ∀ q : List QueueJob, (q.map (fun j => j.id)).Nodup →
      ∀ j ∈ q, findJobById q j.id = some j := by
  intro q
  induction q with
  | nil => intro _ j hj; cases hj
  | cons a t ih =>
    intro hnd j hj
    rcases List.mem_cons.mp hj with rfl | hjt
    · rw [findJobById]
      exact @List.find?_cons_of_pos _ (fun x => x.id == j.id) j t (by simp)
    · have hne : ¬(a.id == j.id) = true := by
        intro he
        have hmem : j.id ∈ t.map (fun j => j.id) := List.mem_map_of_mem _ hjt
        rw [List.map_cons, List.nodup_cons] at hnd
        exact hnd.1 (eq_of_beq he ▸ hmem)
      rw [findJobById, @List.find?_cons_of_neg _ (fun x => x.id == j.id) a t hne]
      exact ih (by rw [List.map_cons, List.nodup_cons] at hnd; exact hnd.2) j hjt


/-- Each step transforms the job list along `QueueEvolves`. -/
theorem step_evolves {docs0 : List DocRow} {s s' : SystemState}
    (hr : Reachable docs0 s) (hstep : Step s s') : QueueEvolves s.queue s'.queue := by
  have hinv := inv_reachable hr
  cases hstep with
  | enqueue documentId filePath mimeType now =>
    exact QueueEvolves.push _ _ rfl
  | startLoop ha => exact QueueEvolves.same _
  | pick i ha hw hfind =>
    obtain ⟨hi, hpend⟩ := findPendingIdx_spec _ _ hfind
    have hq : s.queue.get? i = some (s.queue.get ⟨i, hi⟩) := by
      rw [List.get?_eq_getElem?, List.getElem?_eq_getElem hi]
      rfl
    have hms : (markProcessing s i).queue =
        s.queue.set i { s.queue.get ⟨i, hi⟩ with status := .processing } := by
      rw [markProcessing, hq]
    rw [hms]
    refine QueueEvolves.modify _ i _ hi ?_ ?_
    · simp [sameJobCore]
    · rw [hpend]
      rfl
  | finish i ocr mam now hw hi =>
    obtain ⟨ha, hi2, hst, hu⟩ := hinv.2 i hw
    have hq : s.queue.get? i = some (s.queue.get ⟨i, hi⟩) := by
      rw [List.get?_eq_getElem?, List.getElem?_eq_getElem hi]
      rfl
    cases hext : extractTextAdvanced (s.queue.get ⟨i, hi⟩).mimeType ocr mam with
    | ok t =>
      show QueueEvolves s.queue (finishOkEffect s i t now).queue
      have hfe : (finishOkEffect s i t now).queue =
          s.queue.set i { s.queue.get ⟨i, hi⟩ with status := .completed, processedAt := some now } := by
        rw [finishOkEffect, hq]
      rw [hfe]
      refine QueueEvolves.modify _ i _ hi ?_ ?_
      · simp [sameJobCore]
      · rw [hst]
        rfl
    | error e =>
      show QueueEvolves s.queue (finishErrEffect s i e now).queue
      have hfe : (finishErrEffect s i e now).queue =
          s.queue.set i { s.queue.get ⟨i, hi⟩ with status := .failed, error := some e, processedAt := some now } := by
        rw [finishErrEffect, hq]
      rw [hfe]
      refine QueueEvolves.modify _ i _ hi ?_ ?_
      · simp [sameJobCore]
      · rw [hst]
        rfl
  | endLoop now ha hw hnone =>
    exact QueueEvolves.sweep _ now

/-- Along `QueueEvolves`, a pending or processing record survives with
its identity fields intact and its status moved at most one allowed edge
forward. -/
theorem evolves_live {q q' : List QueueJob} (h : QueueEvolves q q') :
    ∀ j ∈ q, (j.status = .pending ∨ j.status = .processing) →
      ∃ j' ∈ q', sameJobCore j j' = true ∧ statusStepOk j.status j'.status = true := by
  cases h with
  | same =>
    intro j hj _
    exact ⟨j, hj, sameJobCore_refl j, statusStepOk_refl _⟩
  | push j0 hj0 =>
    intro j hj _
    exact ⟨j, List.mem_append_left _ hj, sameJobCore_refl j, statusStepOk_refl _⟩
  | modify i j' hi hcore hok =>
    intro j hj _
    rcases List.mem_iff_getElem.mp hj with ⟨k, hk, rfl⟩
    by_cases hki : k = i
    · subst hki
      refine ⟨j', ?_, hcore, hok⟩
      have hk1 : k < (q.set k j').length := by simpa using hk
      exact List.mem_iff_getElem.mpr ⟨k, hk1, by rw [List.getElem_set, if_pos rfl]⟩
    · refine ⟨q[k], ?_, sameJobCore_refl _, statusStepOk_refl _⟩
      have hk1 : k < (q.set i j').length := by simpa using hk
      exact List.mem_iff_getElem.mpr
        ⟨k, hk1, by rw [List.getElem_set, if_neg (fun hik => hki hik.symm)]⟩
  | sweep now =>
    intro j hj hlive
    have hkeep : keepAfterCleanup now j = true := by
      rcases hlive with hst | hst <;> simp [keepAfterCleanup, hst]
    exact ⟨j, List.mem_filter.mpr ⟨hj, hkeep⟩, sameJobCore_refl j, statusStepOk_refl _⟩

/-- C4 amended: a sequence of N enqueues appends exactly N job records;
provided the produced job ids are pairwise distinct (ids are
documentId-timestamp strings, so two enqueues of the same document in
the same millisecond collide and shadow each other in the status query),
each record is reachable by a status query using the id its enqueue
returned; and every step either appends a pending job, rewrites exactly
one record forward along pending → processing → (completed | failed)
keeping its identity fields, or sweeps only finished records — so a
pending or processing record survives every step and no status ever
regresses. -/
theorem c4_amended :
    (∀ (s : SystemState) (es : List (Nat × String × String × Nat)),
        (enqueueMany s es).queue = s.queue ++ jobsOf es ∧
        (enqueueMany s es).queue.length = s.queue.length + es.length) ∧
      (∀ (s : SystemState) (es : List (Nat × String × String × Nat)),
        ((enqueueMany s es).queue.map (fun j => j.id)).Nodup →
        ∀ j ∈ jobsOf es, getJobStatus (enqueueMany s es) j.id = some j) ∧
      (∀ (docs0 : List DocRow) (s s' : SystemState),
        Reachable docs0 s → Step s s' → QueueEvolves s.queue s'.queue) ∧
      (∀ (docs0 : List DocRow) (s s' : SystemState),
        Reachable docs0 s → Step s s' →
        ∀ j ∈ s.queue, (j.status = .pending ∨ j.status = .processing) →
        ∃ j' ∈ s'.queue, sameJobCore j j' = true ∧ statusStepOk j.status j'.status = true) := by
  refine ⟨?_, ?_, ?_, ?_⟩
  · intro s es
    refine ⟨enqueueMany_queue es s, ?_⟩
    rw [enqueueMany_queue es s]
    simp [jobsOf]
  · intro s es hnd j hj
    have hq := enqueueMany_queue es s
    have hmem : j ∈ (enqueueMany s es).queue := by
      rw [hq]
      exact List.mem_append_right _ hj
    exact find_by_id_of_nodup _ hnd j hmem
  · intro docs0 s s' hr hstep
    exact step_evolves hr hstep
  · intro docs0 s s' hr hstep
    exact evolves_live (step_evolves hr hstep)

/-- State reached by enqueueing the same document twice in the same
millisecond (two colliding job ids "1-5") and letting the worker finish
the first job. -/
def dupIdState : SystemState :=
  finishOkEffect
    (markProcessing
      { enqueueEffect (enqueueEffect (initState []) 1 "/u" "application/msword" 5)
          1 "/u" "application/msword" 5 with active := true } 0) 0 "texto" 6

/-- C4 counterexample: after two enqueues of document 1 in the same
millisecond and completion of the first job, the still-pending second
record carries the same id "1-5", and the status query for that id
answers the completed first record — the second job is not reachable by
the id its enqueue returned even though it has not completed or
failed. -/
theorem c4_counterexample :
    Reachable [] dupIdState ∧
      dupIdState.queue.length = 2 ∧
      (dupIdState.queue[1]?).map (fun j => j.id) = some "1-5" ∧
      (dupIdState.queue[1]?).map (fun j => j.status) = some .pending ∧
      (getJobStatus dupIdState "1-5").map (fun j => j.status) = some .completed ∧
      getJobStatus dupIdState "1-5" ≠ dupIdState.queue[1]? := by
  refine ⟨?_, by decide, by decide, by decide, by decide, by decide⟩
  exact Relation.ReflTransGen.tail
    (Relation.ReflTransGen.tail
      (Relation.ReflTransGen.tail
        (Relation.ReflTransGen.tail
          (Relation.ReflTransGen.tail Relation.ReflTransGen.refl
            (Step.enqueue (initState []) 1 "/u" "application/msword" 5))
          (Step.enqueue (enqueueEffect (initState []) 1 "/u" "application/msword" 5)
            1 "/u" "application/msword" 5))
        (Step.startLoop
          (enqueueEffect (enqueueEffect (initState []) 1 "/u" "application/msword" 5)
            1 "/u" "application/msword" 5) rfl))
      (Step.pick
        { enqueueEffect (enqueueEffect (initState []) 1 "/u" "application/msword" 5)
            1 "/u" "application/msword" 5 with active := true } 0 rfl rfl rfl))
    (Step.finish
      (markProcessing
        { enqueueEffect (enqueueEffect (initState []) 1 "/u" "application/msword" 5)
            1 "/u" "application/msword" 5 with active := true } 0)
      0 (.ok "") (.ok "texto") 6 rfl (by decide))

/-- Enqueue sequence with distinct ids used by the C4 witness. -/
def esW : List (Nat × String × String × Nat) :=
  [(1, "/u", "application/pdf", 5), (2, "/u", "application/pdf", 6)]

/-- C4 witness: the amended theorem applied at a concrete two-enqueue
sequence with distinct ids, and at a concrete enqueue step from a
reachable state. -/
theorem c4_witness :
    getJobStatus (enqueueMany (initState []) esW) (mkJob 1 "/u" "application/pdf" 5).id =
        some (mkJob 1 "/u" "application/pdf" 5) ∧
      (∃ j' ∈ (enqueueEffect (enqueueEffect (initState []) 1 "/u" "application/pdf" 5)
          2 "/u" "application/pdf" 6).queue,
        sameJobCore (mkJob 1 "/u" "application/pdf" 5) j' = true ∧
        statusStepOk (mkJob 1 "/u" "application/pdf" 5).status j'.status = true) := by
  constructor
  · exact c4_amended.2.1 (initState []) esW (by decide) _ (by decide)
  · exact c4_amended.2.2.2 [] _ _
      (Relation.ReflTransGen.tail Relation.ReflTransGen.refl
        (Step.enqueue (initState []) 1 "/u" "application/pdf" 5))
      (Step.enqueue (enqueueEffect (initState []) 1 "/u" "application/pdf" 5)
        2 "/u" "application/pdf" 6)
      (mkJob 1 "/u" "application/pdf" 5) (by decide) (Or.inl rfl)

/-- Membership is invariant under ordered insertion. -/
theorem mem_insertSorted {α : Type} (le : α → α → Bool) (a x : α) :
    ∀ l : List α, x ∈ insertSorted le a l ↔ x = a ∨ x ∈ l := by
  intro l
  induction l with
  | nil => simp [insertSorted]
  | cons b l ih =>
    by_cases hab : le a b = true
    · simp [insertSorted, hab]
    · simp only [insertSorted, if_neg hab, List.mem_cons, ih]
      tauto

/-- Membership is invariant under sorting. -/
theorem mem_sortByRel {α : Type} (le : α → α → Bool) (x : α) :
    ∀ l : List α, x ∈ sortByRel le l ↔ x ∈ l := by
  intro l
  induction l with
  | nil => simp [sortByRel]
  | cons a l ih =>
    simp [sortByRel, mem_insertSorted, ih]

/-- Ordered insertion into a sorted list stays sorted, for a total and
transitive Boolean comparison. -/
theorem pairwise_insertSorted {α : Type} (le : α → α → Bool)
    (htot : ∀ a b, (le a b || le b a) = true)
    (htrans : ∀ a b c, le a b = true → le b c = true → le a c = true) (a : α) :
    ∀ l : List α, l.Pairwise (fun x y => le x y = true) →
      (insertSorted le a l).Pairwise (fun x y => le x y = true) := by
  intro l
  induction l with
  | nil =>
    intro _
    simp [insertSorted]
  | cons b l ih =>
    intro hp
    by_cases hab : le a b = true
    · rw [insertSorted, if_pos hab]
      refine List.Pairwise.cons ?_ hp
      intro x hx
      rcases List.mem_cons.mp hx with rfl | hxl
      · exact hab
      · exact htrans a b x hab (List.rel_of_pairwise_cons hp hxl)
    · rw [insertSorted, if_neg hab]
      have hba : le b a = true := by
        have h := htot a b
        rw [Bool.or_eq_true] at h
        rcases h with h | h
        · exact absurd h hab
        · exact h
      refine List.Pairwise.cons ?_ (ih hp.of_cons)
      intro x hx
      rcases (mem_insertSorted le a x l).mp hx with rfl | hxl
      · exact hba
      · exact List.rel_of_pairwise_cons hp hxl

/-- Insertion sort sorts, for a total and transitive Boolean
comparison. -/
theorem pairwise_sortByRel {α : Type} (le : α → α → Bool)
    (htot : ∀ a b, (le a b || le b a) = true)
    (htrans : ∀ a b c, le a b = true → le b c = true → le a c = true) :
    ∀ l : List α, (sortByRel le l).Pairwise (fun x y => le x y = true) := by
  intro l
  induction l with
  | nil => simp [sortByRel]
  | cons a l ih =>
    rw [sortByRel]
    exact pairwise_insertSorted le htot htrans a _ ih

/-- The null-as-greatest comparison is total. -/
theorem nullsLastLe_total (x y : Option Nat) : (nullsLastLe x y || nullsLastLe y x) = true := by
  cases x <;> cases y <;> simp [nullsLastLe] <;> omega

/-- The null-as-greatest comparison is transitive. -/
theorem nullsLastLe_trans (x y z : Option Nat) (h1 : nullsLastLe x y = true)
    (h2 : nullsLastLe y z = true) : nullsLastLe x z = true := by
  cases x <;> cases y <;> cases z <;> simp [nullsLastLe] at * <;> omega

/-- Every `orderBy` comparison selected by `sortRel` is total. -/
theorem sortRel_total (key : String) (a b : DocRow) :
    (sortRel key a b || sortRel key b a) = true := by
  rw [sortRel]
  split
  · exact nullsLastLe_total _ _
  · split
    · exact nullsLastLe_total _ _
    · split
      · simp
        exact le_total _ _
      · split
        · simp
          exact le_total _ _
        · simp
          exact le_total _ _

/-- Every `orderBy` comparison selected by `sortRel` is transitive. -/
theorem sortRel_trans (key : String) (a b c : DocRow) (h1 : sortRel key a b = true)
    (h2 : sortRel key b c = true) : sortRel key a c = true := by
  rw [sortRel] at *
  split at h1 <;> simp_all
  · exact nullsLastLe_trans _ _ _ h2 h1
  · split at h1 <;> simp_all
    · exact nullsLastLe_trans _ _ _ h1 h2
    · split at h1 <;> simp_all
      · exact le_trans h1 h2
      · split at h1 <;> simp_all <;> omega

/-- The where clause built from the pushed condition list equals the
explicit conjunction of the individual provided filters. -/
theorem whereClause_eq_spec (p : SearchParams) (d : DocRow) :
    whereClause p d = searchFilterSpec p d := by
  rcases p with ⟨q, c, dep, f, t, pg, lim, sb⟩
  rw [whereClause, whereConds, searchFilterSpec]
  rw [List.all_append, List.all_append, List.all_append, List.all_append]
  have hQ : (match q with
      | some qv => if qv == "" then ([] : List (DocRow → Bool)) else [queryCond qv]
      | none => []).all (fun cnd => cnd d) =
      (match q with
       | some qv => if qv == "" then true else queryCond qv d
       | none => true) := by
    cases q with
    | none => rfl
    | some qv => cases hqq : (qv == "") <;> simp [hqq]
  have hC : (match c with
      | some cv =>
        if cv == "" then ([] : List (DocRow → Bool))
        else ([fun d => d.category == cv] : List (DocRow → Bool))
      | none => []).all (fun cnd => cnd d) =
      (match c with
       | some cv => if cv == "" then true else d.category == cv
       | none => true) := by
    cases c with
    | none => rfl
    | some cv => cases hcc : (cv == "") <;> simp [hcc]
  have hD : (match dep with
      | some dv =>
        if dv == "" then ([] : List (DocRow → Bool))
        else ([fun d => match d.department with
                        | some x => x == dv
                        | none => false] : List (DocRow → Bool))
      | none => []).all (fun cnd => cnd d) =
      (match dep with
       | some dv =>
         if dv == "" then true
         else match d.department with
              | some x => x == dv
              | none => false
       | none => true) := by
    cases dep with
    | none => rfl
    | some dv => cases hdd : (dv == "") <;> simp [hdd]
  have hF : (match f with
      | some t0 => ([fun d => match d.documentDate with
                               | some t => decide (t0 ≤ t)
                               | none => false] : List (DocRow → Bool))
      | none => ([] : List (DocRow → Bool))).all (fun cnd => cnd d) =
      (match f with
       | some t0 => match d.documentDate with
                    | some t => decide (t0 ≤ t)
                    | none => false
       | none => true) := by
    cases f with
    | none => rfl
    | some t0 => simp
  have hT : (match t with
      | some t1 => ([fun d => match d.documentDate with
                               | some tv => decide (tv ≤ t1)
                               | none => false] : List (DocRow → Bool))
      | none => ([] : List (DocRow → Bool))).all (fun cnd => cnd d) =
      (match t with
       | some t1 => match d.documentDate with
                    | some tv => decide (tv ≤ t1)
                    | none => false
       | none => true) := by
    cases t with
    | none => rfl
    | some t1 => simp
  rw [hQ, hC, hD, hF, hT]

/-- C5 amended: search filters compose conjunctively — the composed
where clause equals the explicit conjunction of the individual provided
filters (free-text condition OR-ed across title, description, subject
and extracted text; exact category and department equality; inclusive
date bounds) — and a document is returned only if it is a table row
satisfying the composed clause.  The free-text condition is a
case-insensitive SQL LIKE pattern match of `%query%` with the query
interpolated unescaped, so `%` and `_` inside the query act as
wildcards (for queries without wildcard characters this is a substring
match). -/
theorem c5_filters_conjunctive :
    (∀ (p : SearchParams) (d : DocRow), whereClause p d = searchFilterSpec p d) ∧
      (∀ (q : String) (d : DocRow),
        queryCond q d =
          (ilikeContains q d.title || optIlike q d.description ||
            optIlike q d.subject || optIlike q d.extractedText)) ∧
      (∀ (table : List DocRow) (p : SearchParams) (d : DocRow),
        d ∈ (searchDocuments table p).documents →
          d ∈ table ∧ whereClause p d = true) := by
  refine ⟨whereClause_eq_spec, fun q d => rfl, ?_⟩
  intro table p d hd
  have h1 : d ∈ sortByRel (sortRel p.sortBy) (table.filter (whereClause p)) := by
    have h2 := List.take_subset p.limit _ hd
    exact List.drop_subset _ _ h2
  have h3 : d ∈ table.filter (whereClause p) := (mem_sortByRel _ _ _).mp h1
  exact ⟨(List.mem_filter.mp h3).1, (List.mem_filter.mp h3).2⟩

/-- Document row whose title matches the pattern `a%b` but contains no
substring `a%b`. -/
def docWild : DocRow :=
  { id := 9, title := "aXb", description := none, subject := none, tags := []
    category := "c", department := none, documentDate := none
    fileName := "f", originalName := "o", mimeType := "image/png"
    fileSize := 1, filePath := "/w", extractedText := none
    ocrProcessed := false, createdAt := 1, updatedAt := 1 }

/-- Search parameters carrying a free-text query with an SQL wildcard. -/
def pWild : SearchParams :=
  { query := some "a%b", category := none, department := none
    dateFrom := none, dateTo := none, page := 1, limit := 10, sortBy := "relevance" }

/-- C5 counterexample: with query `a%b`, a document titled `aXb` is
returned by the search (the `%` acts as a wildcard in the ILIKE
pattern), yet it does not satisfy the claimed case-insensitive
substring reading on any of the four text fields. -/
theorem c5_counterexample :
    docWild ∈ (searchDocuments [docWild] pWild).documents ∧
      querySubstrSpec "a%b" docWild = false := by
  constructor
  · decide
  · decide

/-- Search parameters with no filters provided. -/
def pNoF : SearchParams :=
  { query := none, category := none, department := none
    dateFrom := none, dateTo := none, page := 1, limit := 10, sortBy := "relevance" }

/-- C5 witness: the amended theorem applied at a concrete table, search
parameters and returned document. -/
theorem c5_witness : docWild ∈ [docWild] ∧ whereClause pWild docWild = true :=
  c5_filters_conjunctive.2.2 [docWild] pWild docWild (by decide)

/-- C6: the returned page is sorted by the comparison selected by the
sort key — document date descending for "date-desc", document date
ascending for "date-asc", title ascending for "title", file size
descending for "size", and creation timestamp descending for any other
key, "relevance" included (it has no scoring) — and with no filters the
returned total equals the full row count of the table. -/
theorem c6_sort_and_total (table : List DocRow) (p : SearchParams) :
    List.Pairwise (fun a b => sortRel p.sortBy a b = true)
        (searchDocuments table p).documents ∧
      (noFiltersProvided p → (searchDocuments table p).total = table.length) ∧
      (∀ a b : DocRow, sortRel "relevance" a b = decide (b.createdAt ≤ a.createdAt)) ∧
      (∀ a b : DocRow, sortRel "date-desc" a b = nullsLastLe b.documentDate a.documentDate) ∧
      (∀ a b : DocRow, sortRel "date-asc" a b = nullsLastLe a.documentDate b.documentDate) ∧
      (∀ a b : DocRow, sortRel "title" a b = decide (a.title ≤ b.title)) ∧
      (∀ a b : DocRow, sortRel "size" a b = decide (b.fileSize ≤ a.fileSize)) := by
  refine ⟨?_, ?_, fun a b => rfl, fun a b => rfl, fun a b => rfl, fun a b => rfl, fun a b => rfl⟩
  · have hsorted := pairwise_sortByRel (sortRel p.sortBy) (sortRel_total p.sortBy)
      (sortRel_trans p.sortBy) (table.filter (whereClause p))
    have hsub : (searchDocuments table p).documents.Sublist
        (sortByRel (sortRel p.sortBy) (table.filter (whereClause p))) :=
      List.Sublist.trans (List.take_sublist _ _) (List.drop_sublist _ _)
    exact List.Pairwise.sublist hsub hsorted
  · intro hnf
    rcases p with ⟨q, c, dep, f, t, pg, lim, sb⟩
    obtain ⟨h1, h2, h3, h4, h5⟩ := hnf
    cases h1
    cases h2
    cases h3
    cases h4
    cases h5
    show (table.filter (whereClause _)).length = table.length
    rw [List.filter_eq_self.mpr]
    intro a _
    rfl

/-- Two-row table used by the C6 witness. -/
def docB : DocRow :=
  { id := 10, title := "B", description := none, subject := none, tags := []
    category := "c", department := none, documentDate := some 900
    fileName := "g", originalName := "g", mimeType := "image/png"
    fileSize := 2, filePath := "/g", extractedText := none
    ocrProcessed := false, createdAt := 5, updatedAt := 5 }

/-- C6 witness: the theorem applied at a concrete two-row table with no
filters, yielding the full row count. -/
theorem c6_witness : (searchDocuments [docEx, docB] pNoF).total = 2 :=
  (c6_sort_and_total [docEx, docB] pNoF).2.1 ⟨rfl, rfl, rfl, rfl, rfl⟩

/-- Dropping leading whitespace leaves a non-space head. -/
theorem headNotSpace_dropWhile (l : List Char) :
    headNotSpace (l.dropWhile jsIsSpace) = true := by
  induction l with
  | nil => rfl
  | cons c rest ih =>
    by_cases hc : jsIsSpace c = true
    · rw [List.dropWhile_cons_of_pos hc]
      exact ih
    · rw [List.dropWhile_cons_of_neg hc]
      simp [headNotSpace]
      simpa using hc

/-- Removing trailing whitespace only removes characters. -/
theorem mem_dropTrailingSpaces {x : Char} :
    ∀ l : List Char, x ∈ dropTrailingSpaces l → x ∈ l := by
  intro l
  induction l with
  | nil => intro h; cases h
  | cons c rest ih =>
    intro hx
    rw [dropTrailingSpaces] at hx
    by_cases hcond : ((dropTrailingSpaces rest).isEmpty && jsIsSpace c) = true
    · rw [if_pos hcond] at hx
      cases hx
    · rw [if_neg hcond] at hx
      rcases List.mem_cons.mp hx with rfl | hx2
      · exact List.mem_cons_self _ _
      · exact List.mem_cons_of_mem _ (ih hx2)

/-- Removing characters from the tail keeps the whitespace-adjacency
predicate. -/
theorem noAdjSpace_tail {c : Char} {rest : List Char}
    (h : noAdjSpace (c :: rest) = true) : noAdjSpace rest = true := by
  cases rest with
  | nil => rfl
  | cons b r2 =>
    rw [noAdjSpace] at h
    exact (Bool.and_eq_true_iff.mp h).2

/-- Dropping leading whitespace keeps the whitespace-adjacency
predicate. -/
theorem noAdjSpace_dropWhile :
    ∀ l : List Char, noAdjSpace l = true → noAdjSpace (l.dropWhile jsIsSpace) = true := by
  intro l
  induction l with
  | nil => intro h; exact h
  | cons c rest ih =>
    intro h
    by_cases hc : jsIsSpace c = true
    · rw [List.dropWhile_cons_of_pos hc]
      exact ih (noAdjSpace_tail h)
    · rw [List.dropWhile_cons_of_neg hc]
      exact h

/-- Removing trailing whitespace keeps the whitespace-adjacency
predicate. -/
theorem noAdjSpace_dropTrailingSpaces :
    ∀ l : List Char, noAdjSpace l = true → noAdjSpace (dropTrailingSpaces l) = true := by
  intro l
  induction l with
  | nil => intro h; exact h
  | cons c rest ih =>
    intro h
    rw [dropTrailingSpaces]
    by_cases hcond : ((dropTrailingSpaces rest).isEmpty && jsIsSpace c) = true
    · rw [if_pos hcond]
      rfl
    · rw [if_neg hcond]
      have htail := ih (noAdjSpace_tail h)
      cases hr : dropTrailingSpaces rest with
      | nil => rfl
      | cons d r2 =>
        cases rest with
        | nil => cases hr
        | cons b rest2 =>
          have hd : d = b := by
            rw [dropTrailingSpaces] at hr
            by_cases hc2 : ((dropTrailingSpaces rest2).isEmpty && jsIsSpace b) = true
            · rw [if_pos hc2] at hr
              cases hr
            · rw [if_neg hc2] at hr
              exact (List.cons.injEq _ _ _ _ ▸ hr).1.symm
          subst hd
          rw [hr] at htail
          rw [noAdjSpace]
          refine Bool.and_eq_true_iff.mpr ⟨?_, htail⟩
          rw [noAdjSpace] at h
          exact (Bool.and_eq_true_iff.mp h).1

/-- The result of removing trailing whitespace never ends in
whitespace. -/
theorem lastNotSpace_dropTrailingSpaces :
    ∀ l : List Char, lastNotSpace (dropTrailingSpaces l) = true := by
  intro l
  induction l with
  | nil => rfl
  | cons c rest ih =>
    rw [dropTrailingSpaces]
    by_cases hcond : ((dropTrailingSpaces rest).isEmpty && jsIsSpace c) = true
    · rw [if_pos hcond]
      rfl
    · rw [if_neg hcond]
      cases hr : dropTrailingSpaces rest with
      | nil =>
        rw [hr] at hcond
        simp only [List.isEmpty_nil, Bool.true_and] at hcond
        simp only [lastNotSpace]
        simpa using hcond
      | cons d r2 =>
        rw [hr] at ih
        simpa [lastNotSpace] using ih

/-- Removing trailing whitespace keeps a non-space head. -/
theorem headNotSpace_dropTrailingSpaces {l : List Char}
    (h : headNotSpace l = true) : headNotSpace (dropTrailingSpaces l) = true := by
  cases l with
  | nil => exact h
  | cons c rest =>
    rw [dropTrailingSpaces]
    by_cases hcond : ((dropTrailingSpaces rest).isEmpty && jsIsSpace c) = true
    · rw [if_pos hcond]
      rfl
    · rw [if_neg hcond]
      exact h

/-- Characters surviving the trim are characters of the input. -/
theorem mem_trimChars {x : Char} {l : List Char} (h : x ∈ trimChars l) : x ∈ l := by
  rw [trimChars] at h
  have h2 := mem_dropTrailingSpaces _ h
  exact (List.dropWhile_sublist (p := jsIsSpace) (l := l)).subset h2

/-- Every whitespace character in the output of the whitespace collapse
is the plain space. -/
theorem collapseWhitespace_spaces :
    ∀ l : List Char, ∀ c ∈ collapseWhitespace l, jsIsSpace c = true → c = ' ' := by
  intro l
  induction l using collapseWhitespace.induct with
  | case1 =>
    intro c hc
    rw [collapseWhitespace] at hc
    cases hc
  | case2 c0 rest h ih =>
    intro c hc hsp
    rw [collapseWhitespace, if_pos h] at hc
    rcases List.mem_cons.mp hc with rfl | hc2
    · rfl
    · exact ih c hc2 hsp
  | case3 c0 rest h ih =>
    intro c hc hsp
    rw [collapseWhitespace, if_neg h] at hc
    rcases List.mem_cons.mp hc with rfl | hc2
    · exact absurd hsp h
    · exact ih c hc2 hsp

/-- Every character in the output of the whitespace collapse is a space
or a character of the input. -/
theorem collapseWhitespace_mem :
    ∀ l : List Char, ∀ c ∈ collapseWhitespace l, c = ' ' ∨ c ∈ l := by
  intro l
  induction l using collapseWhitespace.induct with
  | case1 =>
    intro c hc
    rw [collapseWhitespace] at hc
    cases hc
  | case2 c0 rest h ih =>
    intro c hc
    rw [collapseWhitespace, if_pos h] at hc
    rcases List.mem_cons.mp hc with rfl | hc2
    · exact Or.inl rfl
    · rcases ih c hc2 with hsp | hmem
      · exact Or.inl hsp
      · exact Or.inr (List.mem_cons_of_mem _
          ((List.dropWhile_sublist (p := jsIsSpace) (l := rest)).subset hmem))
  | case3 c0 rest h ih =>
    intro c hc
    rw [collapseWhitespace, if_neg h] at hc
    rcases List.mem_cons.mp hc with rfl | hc2
    · exact Or.inr (List.mem_cons_self _ _)
    · rcases ih c hc2 with hsp | hmem
      · exact Or.inl hsp
      · exact Or.inr (List.mem_cons_of_mem _ hmem)

/-- The whitespace collapse keeps a non-space head. -/
theorem collapseWhitespace_headNotSpace {l : List Char}
    (h : headNotSpace l = true) : headNotSpace (collapseWhitespace l) = true := by
  cases l with
  | nil => rw [collapseWhitespace]; rfl
  | cons c rest =>
    have hc : ¬jsIsSpace c = true := by
      rw [headNotSpace] at h
      simpa using h
    rw [collapseWhitespace, if_neg hc]
    rw [headNotSpace]
    simpa using hc

/-- The output of the whitespace collapse has no two adjacent whitespace
characters. -/
theorem collapseWhitespace_noAdj :
    ∀ l : List Char, noAdjSpace (collapseWhitespace l) = true := by
  intro l
  induction l using collapseWhitespace.induct with
  | case1 => rw [collapseWhitespace]; rfl
  | case2 c0 rest h ih =>
    rw [collapseWhitespace, if_pos h]
    cases hX : collapseWhitespace (rest.dropWhile jsIsSpace) with
    | nil => rfl
    | cons d r2 =>
      have hhead : headNotSpace (collapseWhitespace (rest.dropWhile jsIsSpace)) = true :=
        collapseWhitespace_headNotSpace (headNotSpace_dropWhile rest)
      rw [hX] at hhead ih
      rw [noAdjSpace]
      refine Bool.and_eq_true_iff.mpr ⟨?_, ih⟩
      rw [headNotSpace] at hhead
      simp only [Bool.not_eq_eq_eq_not, Bool.not_true] at hhead
      simp [hhead]
  | case3 c0 rest h ih =>
    rw [collapseWhitespace, if_neg h]
    cases hX : collapseWhitespace rest with
    | nil => rfl
    | cons d r2 =>
      rw [hX] at ih
      rw [noAdjSpace]
      refine Bool.and_eq_true_iff.mpr ⟨?_, ih⟩
      have hc : jsIsSpace c0 = false := by simpa using h
      simp [hc]

/-- A list whose whitespace is all plain spaces and never adjacent is a
fixed point of the whitespace collapse. -/
theorem collapseWhitespace_fixed :
    ∀ l : List Char, (∀ c ∈ l, jsIsSpace c = true → c = ' ') → noAdjSpace l = true →
      collapseWhitespace l = l := by
  intro l
  induction l using collapseWhitespace.induct with
  | case1 => intro _ _; rw [collapseWhitespace]
  | case2 c0 rest h ih =>
    intro hsp hadj
    rw [collapseWhitespace, if_pos h]
    have hc0 : c0 = ' ' := hsp c0 (List.mem_cons_self _ _) h
    cases rest with
    | nil =>
      rw [hc0]
      simp [collapseWhitespace]
    | cons b rest2 =>
      have hb : ¬jsIsSpace b = true := by
        rw [noAdjSpace] at hadj
        have h1 := (Bool.and_eq_true_iff.mp hadj).1
        intro hbs
        rw [h, hbs] at h1
        cases h1
      have hdw : (b :: rest2).dropWhile jsIsSpace = b :: rest2 :=
        List.dropWhile_cons_of_neg hb
      rw [hdw] at ih ⊢
      rw [ih (fun c hc hs => hsp c (List.mem_cons_of_mem _ hc) hs) (noAdjSpace_tail hadj)]
      rw [hc0]
  | case3 c0 rest h ih =>
    intro hsp hadj
    rw [collapseWhitespace, if_neg h]
    rw [ih (fun c hc hs => hsp c (List.mem_cons_of_mem _ hc) hs) (noAdjSpace_tail hadj)]

/-- A list of allowed characters is a fixed point of the character
strip. -/
theorem stripDisallowed_fixed {l : List Char} (h : ∀ c ∈ l, isAllowedChar c = true) :
    stripDisallowed l = l :=
  List.filter_eq_self.mpr h

/-- A list without newlines is a fixed point of the blank-line
collapse. -/
theorem collapseBlankLines_fixed :
    ∀ l : List Char, '\n' ∉ l → collapseBlankLines l = l := by
  intro l
  induction l using collapseBlankLines.induct with
  | case1 => intro _; rw [collapseBlankLines]
  | case2 c rest h ih =>
    intro hnl
    exact absurd (h.1 ▸ List.mem_cons_self c rest) hnl
  | case3 c rest h ih =>
    intro hnl
    rw [collapseBlankLines, dif_neg h]
    rw [ih (fun hmem => hnl (List.mem_cons_of_mem _ hmem))]

/-- A list that does not end in whitespace is a fixed point of the
trailing-whitespace removal. -/
theorem dropTrailingSpaces_fixed :
    ∀ l : List Char, lastNotSpace l = true → dropTrailingSpaces l = l := by
  intro l
  induction l with
  | nil => intro _; rfl
  | cons c rest ih =>
    intro h
    rw [dropTrailingSpaces]
    cases rest with
    | nil =>
      have hc : ¬jsIsSpace c = true := by
        rw [lastNotSpace] at h
        simpa using h
      simp [hc, dropTrailingSpaces]
    | cons b rest2 =>
      have htail : lastNotSpace (b :: rest2) = true := by
        simpa [lastNotSpace] using h
      rw [ih htail]
      simp only [List.isEmpty_cons, Bool.false_and, Bool.false_eq_true, if_false]

/-- A list that neither starts nor ends in whitespace is a fixed point
of the trim. -/
theorem trimChars_fixed {l : List Char} (hh : headNotSpace l = true)
    (hl : lastNotSpace l = true) : trimChars l = l := by
  rw [trimChars]
  have hdw : l.dropWhile jsIsSpace = l := by
    cases l with
    | nil => rfl
    | cons c rest =>
      have hc : ¬jsIsSpace c = true := by
        rw [headNotSpace] at hh
        simpa using hh
      exact List.dropWhile_cons_of_neg hc
  rw [hdw]
  exact dropTrailingSpaces_fixed l hl

/-- C10: the advanced-pass OCR text cleaning is idempotent — cleaning an
already cleaned text changes nothing, so every cleaned extraction result
is a fixed point of the cleaning (no newline runs, only allowed
characters, single-space normalised, trimmed). -/
theorem c10_cleanOCRText_idempotent (t : String) :
    cleanOCRText (cleanOCRText t) = cleanOCRText t := by
  rw [cleanOCRText]
  set B := stripDisallowed (collapseBlankLines t.data) with hB
  set C := collapseWhitespace B with hC
  set D := trimChars C with hD
  have hmemD : ∀ c ∈ D, c ∈ C := fun c hc => mem_trimChars hc
  have hspD : ∀ c ∈ D, jsIsSpace c = true → c = ' ' := fun c hc =>
    collapseWhitespace_spaces B c (hmemD c hc)
  have hallowD : ∀ c ∈ D, isAllowedChar c = true := by
    intro c hc
    rcases collapseWhitespace_mem B c (hmemD c hc) with rfl | hmem
    · decide
    · exact (List.mem_filter.mp hmem).2
  have hnlD : '\n' ∉ D := by
    intro hmem
    have := hspD '\n' hmem (by decide)
    cases this
  have hadjD : noAdjSpace D = true := by
    rw [hD, trimChars]
    exact noAdjSpace_dropTrailingSpaces _
      (noAdjSpace_dropWhile _ (collapseWhitespace_noAdj B))
  have hheadD : headNotSpace D = true := by
    rw [hD, trimChars]
    exact headNotSpace_dropTrailingSpaces (headNotSpace_dropWhile C)
  have hlastD : lastNotSpace D = true := by
    rw [hD, trimChars]
    exact lastNotSpace_dropTrailingSpaces _
  show String.mk (trimChars (collapseWhitespace (stripDisallowed (collapseBlankLines D)))) =
    String.mk D
  rw [collapseBlankLines_fixed D hnlD, stripDisallowed_fixed hallowD,
    collapseWhitespace_fixed D hspD hadjD, trimChars_fixed hheadD hlastD]
